import Mathlib

/-!
Verification of the diff-to-context extraction core of an AI code-review
service. The TypeScript sources (DiffService, AstService, TokenService) are
shallowly embedded below: pure functions become Lean functions, JavaScript
strings become `String` (operated on through their `List Char` data so that
everything evaluates in the kernel), optional JS fields become `Option`,
thrown JS exceptions become `Except`, and the Babel syntax tree is an ordered
tree of located nodes. Numeric values that the source manipulates as
non-negative integers are `Nat`; computations that can go below zero in
JavaScript are done in `Int`.
-/

namespace CodeReview

/-! ## JavaScript string primitives

The source manipulates strings with `split`, `startsWith`, `trim`,
`replace(/^.../, '')`, `join`, `slice`, `substring` and `toLowerCase`.
They are modelled over the character list of a `String` so that proofs and
witnesses can evaluate them by `decide`/`rfl`. -/

/-- `s.split(c)` on a single-character separator: JavaScript semantics,
so `"".split(c) = [""]` and a trailing separator yields a trailing `""`. -/
def splitChar (c : Char) : List Char → List (List Char)
  | [] => [[]]
  | x :: xs =>
    if x = c then [] :: splitChar c xs
    else
      match splitChar c xs with
      | [] => [[x]]
      | g :: gs => (x :: g) :: gs

/-- `diff.split('\n')`. -/
def jsSplitLines (s : String) : List String :=
  (splitChar '\n' s.data).map String.mk

/-- `filePath.split('.')`. -/
def jsSplitDots (s : String) : List String :=
  (splitChar '.' s.data).map String.mk

/-- `s.startsWith(p)`. -/
def jsStartsWith (s p : String) : Bool :=
  p.data.isPrefixOf s.data

/-- `lines.join('\n')` over character lists. -/
def joinNLData : List (List Char) → List Char
  | [] => []
  | [x] => x
  | x :: y :: xs => x ++ '\n' :: joinNLData (y :: xs)

/-- `lines.join('\n')`. -/
def jsJoinNL (lines : List String) : String :=
  String.mk (joinNLData (lines.map (·.data)))

/-- `s.trim()`: strip leading and trailing whitespace. -/
def jsTrim (s : String) : String :=
  String.mk (((s.data.dropWhile Char.isWhitespace).reverse.dropWhile
    Char.isWhitespace).reverse)

/-- True when the string is empty (the JavaScript falsy test on a string). -/
def jsIsEmptyStr (s : String) : Bool :=
  s.data.isEmpty

/-- `arr.slice(a, b)` for non-negative indices. -/
def jsSlice (l : List α) (a b : Nat) : List α :=
  (l.drop a).take (b - a)

/-- `s.toLowerCase()` (ASCII, which is all the extension check needs). -/
def jsToLower (s : String) : String :=
  String.mk (s.data.map Char.toLower)

/-! ## Data model (src/types: DiffLine, ExtendedDiff, CodeBlock, AppConfig) -/

/-- The `type` tag of a `DiffLine`: `'added' | 'removed' | 'context'`. -/
inductive LineType where
  | added
  | removed
  | context
deriving DecidableEq

/-- `DiffLine` from src/types. -/
structure DiffLine where
  lineNumber : Nat
  content : String
  type : LineType
  oldLineNumber : Option Nat := none
  newLineNumber : Option Nat := none
deriving DecidableEq

/-- `ExtendedDiff` from src/types (the unused `commitMessage` is omitted). -/
structure ExtendedDiff where
  filePath : String
  oldPath : Option String
  diffLines : List DiffLine
deriving DecidableEq

/-- `CodeBlock` from src/types; `type` keeps the source string tags
`"function" | "class" | "method" | "unknown"`. -/
structure CodeBlock where
  code : String
  startLine : Nat
  endLine : Nat
  type : String
  name : Option String := none
deriving DecidableEq

/-- `config.ai` (the fields this core reads). -/
structure AiConfig where
  maxTokens : Int

/-- `config.token`. -/
structure TokenConfig where
  reservedOutputTokens : Int

/-- `config.ast`. -/
structure AstConfig where
  maxChars : Nat
  maxLines : Nat
  timeoutMs : Nat
  maxDepth : Nat
deriving DecidableEq

/-- `AppConfig`, restricted to the sections this core reads. -/
structure AppConfig where
  ai : AiConfig
  token : TokenConfig
  ast : AstConfig

/-! ## DiffService.parseDiff -/

/-- Greedy run of decimal digits, as matched by `(\d+)`. -/
def spanDigits (cs : List Char) : List Char × List Char :=
  (cs.takeWhile (·.isDigit), cs.dropWhile (·.isDigit))

/-- Decimal value of a digit run (`parseInt` on a matched `\d+` group). -/
def digitsToNat (ds : List Char) : Nat :=
  ds.foldl (fun n c => n * 10 + (c.toNat - 48)) 0

/-- The optional `(?:,(\d+))?` group: consume `,digits` when present,
otherwise consume nothing; a bare comma without digits matches the empty
alternative. A missing group yields `parseInt('0') = 0`. -/
def parseOptCount (cs : List Char) : Nat × List Char :=
  match cs with
  | ',' :: r =>
    let (d, r') := spanDigits r
    if d.isEmpty then (0, cs) else (digitsToNat d, r')
  | _ => (0, cs)

/-- Match `/@@ -(\d+)(?:,(\d+))? \+(\d+)(?:,(\d+))? @@/` at the head of the
character list, returning `(oldStart, oldCount, newStart, newCount)`. -/
def matchHunkAt (cs : List Char) : Option (Nat × Nat × Nat × Nat) :=
  match cs with
  | '@' :: '@' :: ' ' :: '-' :: r0 =>
    let (d1, r1) := spanDigits r0
    if d1.isEmpty then none
    else
      let (oc, r2) := parseOptCount r1
      match r2 with
      | ' ' :: '+' :: r3 =>
        let (d3, r4) := spanDigits r3
        if d3.isEmpty then none
        else
          let (nc, r5) := parseOptCount r4
          match r5 with
          | ' ' :: '@' :: '@' :: _ =>
            some (digitsToNat d1, oc, digitsToNat d3, nc)
          | _ => none
      | _ => none
  | _ => none

/-- `line.match(regex)`: search for the hunk-header pattern anywhere in the
line (JavaScript `match` with an unanchored regex). -/
def findHunk : List Char → Option (Nat × Nat × Nat × Nat)
  | [] => matchHunkAt []
  | c :: rest =>
    match matchHunkAt (c :: rest) with
    | some r => some r
    | none => findHunk rest

/-- One iteration of the non-header part of the `parseDiff` loop: classify a
line and produce the emitted record together with the updated
`(currentOldLine, currentNewLine)` counters. -/
def classifyLine (line : String) (curOld curNew : Nat) :
    DiffLine × Nat × Nat :=
  if jsStartsWith line "+" && !(jsStartsWith line "+++") then
    ({ lineNumber := curNew, content := line, type := .added,
       newLineNumber := some curNew }, curOld, curNew + 1)
  else if jsStartsWith line "-" && !(jsStartsWith line "---") then
    ({ lineNumber := curOld, content := line, type := .removed,
       oldLineNumber := some curOld }, curOld + 1, curNew)
  else if jsStartsWith line " " || (line == "") then
    ({ lineNumber := curNew, content := line, type := .context,
       oldLineNumber := some curOld, newLineNumber := some curNew },
     curOld + 1, curNew + 1)
  else
    ({ lineNumber := if curNew = 0 then 1 else curNew, content := line,
       type := .context }, curOld, curNew)

/-- The `for` loop of `DiffService.parseDiff` over the split lines, carrying
the running `currentOldLine`/`currentNewLine` counters. -/
def parseDiffLoop : List String → Nat → Nat → List DiffLine
  | [], _, _ => []
  | line :: rest, curOld, curNew =>
    if jsStartsWith line "@@" then
      match findHunk line.data with
      | some (os, _oc, ns, _nc) =>
        { lineNumber := ns, content := line, type := .context,
          oldLineNumber := some os, newLineNumber := some ns }
          :: parseDiffLoop rest os ns
      | none =>
        let (rec1, o', n') := classifyLine line curOld curNew
        rec1 :: parseDiffLoop rest o' n'
    else
      let (rec1, o', n') := classifyLine line curOld curNew
      rec1 :: parseDiffLoop rest o' n'

/-- `DiffService.parseDiff`. -/
def parseDiff (diff : String) (filePath : String)
    (oldPath : Option String := none) : ExtendedDiff :=
  { filePath := filePath, oldPath := oldPath,
    diffLines := parseDiffLoop (jsSplitLines diff) 0 0 }

end CodeReview

namespace CodeReview

/-! ## Shape of parseDiff records (claim C4) -/

/-- Record shape as the code actually guarantees it: `added` records carry
only a new-file line number, `removed` records only an old-file line number,
and `context` records carry either both (hunk headers and genuine context
lines) or neither (unrecognized lines such as `---`/`+++` file headers). -/
def diffLineShapeB (l : DiffLine) : Bool :=
  match l.type with
  | .added => l.newLineNumber.isSome && l.oldLineNumber.isNone
  | .removed => l.oldLineNumber.isSome && l.newLineNumber.isNone
  | .context =>
    (l.oldLineNumber.isSome && l.newLineNumber.isSome) ||
    (l.oldLineNumber.isNone && l.newLineNumber.isNone)

/-- Record shape as claim C4 states it: every `context` record carries both
line numbers. -/
def diffLineShapeClaimB (l : DiffLine) : Bool :=
  match l.type with
  | .added => l.newLineNumber.isSome && l.oldLineNumber.isNone
  | .removed => l.oldLineNumber.isSome && l.newLineNumber.isNone
  | .context => l.oldLineNumber.isSome && l.newLineNumber.isSome

theorem classifyLine_shape (line : String) (o n : Nat) :
    diffLineShapeB (classifyLine line o n).1 = true := by
  unfold classifyLine
  split
  · simp [diffLineShapeB]
  · split
    · simp [diffLineShapeB]
    · split <;> simp [diffLineShapeB]

theorem parseDiffLoop_shape :
    ∀ (lines : List String) (o n : Nat) (l : DiffLine),
      l ∈ parseDiffLoop lines o n → diffLineShapeB l = true := by
  intro lines
  induction lines with
  | nil => intro o n l hl; simp [parseDiffLoop] at hl
  | cons line rest ih =>
    intro o n l hl
    unfold parseDiffLoop at hl
    split at hl
    · cases hfind : findHunk line.data with
      | some r =>
        obtain ⟨os, oc, ns, nc⟩ := r
        rw [hfind] at hl
        rcases List.mem_cons.mp hl with h | h
        · subst h; simp [diffLineShapeB]
        · exact ih os ns l h
      | none =>
        rw [hfind] at hl
        rcases List.mem_cons.mp hl with h | h
        · subst h; exact classifyLine_shape line o n
        · exact ih _ _ l h
    · rcases List.mem_cons.mp hl with h | h
      · subst h; exact classifyLine_shape line o n
      · exact ih _ _ l h

/-- C4 (amended): every record produced by `parseDiff` satisfies the shape
invariant in which `added`/`removed` records carry exactly the expected side,
and `context` records carry either both line numbers or, for unrecognized
lines (e.g. `---`/`+++` file headers), neither. -/
theorem parseDiff_shape_amended (diff path : String) (oldPath : Option String)
    (l : DiffLine) (hl : l ∈ (parseDiff diff path oldPath).diffLines) :
    diffLineShapeB l = true :=
  parseDiffLoop_shape _ 0 0 l hl

/-- Witness for C4 (amended): the single record parsed from the line `x`. -/
theorem parseDiff_shape_amended_witness :
    ({ lineNumber := 1, content := "x", type := .context } : DiffLine) ∈
        (parseDiff "x" "f" none).diffLines ∧
      diffLineShapeB { lineNumber := 1, content := "x", type := .context }
        = true :=
  ⟨by decide, parseDiff_shape_amended "x" "f" none _ (by decide)⟩

/-- Counterexample to C4 as stated: parsing the file-header lines
`--- a/test.ts` / `+++ b/test.ts` yields `context` records that carry
neither an old-file nor a new-file line number. -/
theorem parseDiff_shape_cex :
    ((parseDiff "--- a/test.ts\n+++ b/test.ts" "test.ts" none).diffLines.all
      diffLineShapeClaimB) = false := by decide

/-! ## The spec example diff (claim C3) -/

/-- The diff text of the spec example. -/
def specExampleDiff : String :=
  "@@ -1,3 +1,4 @@\n line1\n+new line\n line2\n-line3\n+line3 updated"

/-- Counterexample to C3 as stated: the example diff does not yield 5
records (the hunk header is also emitted as a context record, giving 6). -/
theorem parseDiff_example_cex :
    ¬ ((parseDiff specExampleDiff "test.ts" none).diffLines.length = 5) := by
  decide

/-- C3 (amended): the example diff parsed against `test.ts` yields exactly 6
records, and the record for `+new line` (index 2) has new-file line number 2
and type `added`. -/
theorem parseDiff_example_amended :
    (parseDiff specExampleDiff "test.ts" none).filePath = "test.ts" ∧
      (parseDiff specExampleDiff "test.ts" none).diffLines.length = 6 ∧
      (parseDiff specExampleDiff "test.ts" none).diffLines.get? 2 =
        some { lineNumber := 2, content := "+new line", type := .added,
               newLineNumber := some 2 } := by
  decide

end CodeReview

namespace CodeReview

/-! ## AstService: file-extension gate and source reconstruction -/

/-- `AstService.getFileExtension`. -/
def getFileExtension (filePath : String) : String :=
  let parts := jsSplitDots filePath
  if parts.length > 1 then jsToLower ((parts.getLast?).getD "") else ""

/-- `AstService.isSupportedLanguage`. -/
def isSupportedLanguage (extension : String) : Bool :=
  ["js", "jsx", "ts", "tsx", "vue"].contains extension

/-- True for lines `buildFullCode` skips as diff headers
(`@@`, `---`, `+++`). -/
def isSkippedHeader (content : String) : Bool :=
  jsStartsWith content "@@" || jsStartsWith content "---" ||
    jsStartsWith content "+++"

/-- `content.replace(/^[+\- ]/, '')`: drop one leading `+`, `-` or space. -/
def jsStripDiffMark (s : String) : String :=
  match s.data with
  | c :: rest => if c = '+' ∨ c = '-' ∨ c = ' ' then String.mk rest else s
  | [] => s

/-- The line-collecting loop of `AstService.buildFullCode`: skip header
lines, strip the diff mark, skip lines blank after stripping, keep the
rest in order. -/
def buildFullCodeLines : List DiffLine → List String
  | [] => []
  | dl :: rest =>
    if isSkippedHeader dl.content then buildFullCodeLines rest
    else
      let c := jsStripDiffMark dl.content
      if jsIsEmptyStr (jsTrim c) then buildFullCodeLines rest
      else c :: buildFullCodeLines rest

/-- `AstService.buildFullCode`: join the kept lines, trim, and return
`null` when nothing remains. -/
def buildFullCode (diffLines : List DiffLine) : Option String :=
  let code := jsTrim (jsJoinNL (buildFullCodeLines diffLines))
  if jsIsEmptyStr code then none else some code

/-- Reference reconstruction following the spec sentence of claim C5 with
the one clause the code refutes removed: filter out header lines and lines
blank after stripping — keeping context, added *and* removed lines — then
strip each kept line and join. -/
def buildFullCodeSpec (diffLines : List DiffLine) : Option String :=
  let kept := (diffLines.filter (fun dl =>
      !(isSkippedHeader dl.content) &&
        !(jsIsEmptyStr (jsTrim (jsStripDiffMark dl.content))))).map
    (fun dl => jsStripDiffMark dl.content)
  let code := jsTrim (jsJoinNL kept)
  if jsIsEmptyStr code then none else some code

/-- Reference reconstruction following claim C5 exactly as stated: as
`buildFullCodeSpec`, but additionally omitting the content of `removed`
lines. -/
def buildFullCodeClaim (diffLines : List DiffLine) : Option String :=
  let kept := (diffLines.filter (fun dl =>
      !(dl.type == LineType.removed) && !(isSkippedHeader dl.content) &&
        !(jsIsEmptyStr (jsTrim (jsStripDiffMark dl.content))))).map
    (fun dl => jsStripDiffMark dl.content)
  let code := jsTrim (jsJoinNL kept)
  if jsIsEmptyStr code then none else some code

theorem buildFullCodeLines_eq_filter_map (diffLines : List DiffLine) :
    buildFullCodeLines diffLines =
      (diffLines.filter (fun dl =>
        !(isSkippedHeader dl.content) &&
          !(jsIsEmptyStr (jsTrim (jsStripDiffMark dl.content))))).map
        (fun dl => jsStripDiffMark dl.content) := by
  induction diffLines with
  | nil => rfl
  | cons dl rest ih =>
    unfold buildFullCodeLines
    by_cases h1 : isSkippedHeader dl.content
    · simp [h1, ih]
    · by_cases h2 : jsIsEmptyStr (jsTrim (jsStripDiffMark dl.content))
      · simp [h1, h2, ih]
      · simp [h1, h2, ih]

/-- C5 (amended): `buildFullCode` concatenates, in original order, the
lines' content with the leading `+`/`-`/space prefix stripped, skipping hunk
headers, file-header lines and lines blank after stripping, and returns
`null` when nothing remains; the content of removed lines is *included*
(only their `-` prefix is stripped), not omitted. -/
theorem buildFullCode_eq_spec (diffLines : List DiffLine) :
    buildFullCode diffLines = buildFullCodeSpec diffLines := by
  unfold buildFullCode buildFullCodeSpec
  rw [buildFullCodeLines_eq_filter_map]

/-- A one-record diff consisting of the removed line `-line3`. -/
def removedOnlyDiff : List DiffLine :=
  [{ lineNumber := 3, content := "-line3", type := .removed,
     oldLineNumber := some 3 }]

/-- Counterexample to C5 as stated: on a diff consisting of the removed
line `-line3`, `buildFullCode` returns `line3` — the removed line's content
is kept, while the claim (formalized by `buildFullCodeClaim`) says it is
omitted. -/
theorem buildFullCode_removed_cex :
    buildFullCode removedOnlyDiff = some "line3" ∧
      buildFullCodeClaim removedOnlyDiff = none := by
  decide

/-! ## AstService.fallbackExtractBlocks (claim C7) -/

/-- `line.content.replace(/^\+/, '')`: drop one leading `+`. -/
def jsStripPlus (s : String) : String :=
  match s.data with
  | '+' :: rest => String.mk rest
  | _ => s

/-- The JavaScript `x || 1` default applied to an optional line number:
`undefined` and `0` are falsy and become `1`. -/
def jsOr1 (o : Option Nat) : Nat :=
  match o with
  | some n => if n = 0 then 1 else n
  | none => 1

/-- The code text the fallback block carries: the added lines' content with
the leading `+` stripped, joined by newlines. -/
def fallbackCode (addedLines : List DiffLine) : String :=
  jsJoinNL (addedLines.map (fun l => jsStripPlus l.content))

/-- `AstService.fallbackExtractBlocks`. -/
def fallbackExtractBlocks (addedLines : List DiffLine) (cfg : AstConfig) :
    List CodeBlock :=
  if addedLines.isEmpty then []
  else
    let firstLine := jsOr1 ((addedLines.head?).bind (·.newLineNumber))
    let lastLine := jsOr1 ((addedLines.getLast?).bind (·.newLineNumber))
    let code := fallbackCode addedLines
    if code.length > cfg.maxChars then []
    else if ((lastLine : Int) - firstLine + 1) > (cfg.maxLines : Int) then []
    else
      [{ code := code, startLine := firstLine, endLine := lastLine,
         type := "unknown" }]

/-- C7: for a non-empty list of added lines whose first and last records
carry (non-zero) new-file line numbers `a` and `b`, the fallback extractor
returns exactly one block spanning `[a, b]` whose code is the added lines'
content with the leading `+` stripped — unless that code exceeds the
character ceiling or the span exceeds the line ceiling, in which case it
returns no block at all. -/
theorem fallbackExtractBlocks_spec (addedLines : List DiffLine)
    (cfg : AstConfig) (a b : Nat) (hd lst : DiffLine)
    (hhd : addedLines.head? = some hd) (hlst : addedLines.getLast? = some lst)
    (ha : hd.newLineNumber = some a) (ha0 : a ≠ 0)
    (hb : lst.newLineNumber = some b) (hb0 : b ≠ 0) :
    fallbackExtractBlocks addedLines cfg =
      if (fallbackCode addedLines).length > cfg.maxChars ∨
          ((b : Int) - a + 1) > (cfg.maxLines : Int) then []
      else
        [{ code := fallbackCode addedLines, startLine := a, endLine := b,
           type := "unknown" }] := by
  have hne : addedLines.isEmpty = false := by
    cases addedLines with
    | nil => simp at hhd
    | cons x xs => rfl
  have hfa : jsOr1 ((addedLines.head?).bind (·.newLineNumber)) = a := by
    rw [hhd]
    simp [jsOr1, ha, ha0]
  have hfb : jsOr1 ((addedLines.getLast?).bind (·.newLineNumber)) = b := by
    rw [hlst]
    simp [jsOr1, hb, hb0]
  unfold fallbackExtractBlocks
  simp only [hne, Bool.false_eq_true, if_false, hfa, hfb]
  by_cases h1 : (fallbackCode addedLines).length > cfg.maxChars
  · simp [h1]
  · by_cases h2 : ((b : Int) - a + 1) > (cfg.maxLines : Int)
    · simp [h1, h2]
    · simp [h1, h2]

/-- The first added line used by the C7 witness. -/
def witnessAddedHead : DiffLine :=
  { lineNumber := 4, content := "+const x = 1", type := .added,
    newLineNumber := some 4 }

/-- The last added line used by the C7 witness. -/
def witnessAddedLast : DiffLine :=
  { lineNumber := 5, content := "+const y = 2", type := .added,
    newLineNumber := some 5 }

/-- The two added lines used by the C7 witness. -/
def witnessAddedLines : List DiffLine :=
  [witnessAddedHead, witnessAddedLast]

/-- The default `config.ast` values (AST_MAX_CHARS 10000, AST_MAX_LINES 150,
AST_TIMEOUT_MS 8000, AST_MAX_DEPTH 60). -/
def defaultAstConfig : AstConfig :=
  { maxChars := 10000, maxLines := 150, timeoutMs := 8000, maxDepth := 60 }

/-- Witness for C7 at a two-line diff within both ceilings. -/
theorem fallbackExtractBlocks_spec_witness :
    witnessAddedLines.head? = some witnessAddedHead ∧
      fallbackExtractBlocks witnessAddedLines defaultAstConfig =
        [{ code := "const x = 1\nconst y = 2", startLine := 4, endLine := 5,
           type := "unknown" }] := by
  refine ⟨by decide, ?_⟩
  rw [fallbackExtractBlocks_spec witnessAddedLines defaultAstConfig 4 5
    witnessAddedHead witnessAddedLast
    (by decide) (by decide) (by decide) (by decide) (by decide) (by decide)]
  decide

end CodeReview

namespace CodeReview

/-! ## The Babel syntax tree and AstService traversal

A parsed Babel file is modelled as an ordered forest of nodes. `AstForest`
is the standard first-child/next-sibling encoding of that forest: `node d ch
rs` is a node with data `d`, ordered children `ch` and right siblings `rs`.
`traverse(ast, visitors)` fires `enter` on every node in preorder (the root
`File` container itself is not visited), which is exactly a left-to-right
walk of the forest; the `enter`/`exit` depth counter of `createDepthLimiter`
equals the nesting depth of the node being entered. -/

/-- The per-node fields the traversal reads: `node.type`, `node.loc`
(start and end lines when present), `node.id.name` and
`node.key.name || node.key.value`. -/
structure NodeData where
  nodeType : String
  loc : Option (Nat × Nat)
  id : Option String := none
  key : Option String := none
deriving DecidableEq

/-- First-child/next-sibling encoding of an ordered forest of Babel nodes. -/
inductive AstForest where
  | nil
  | node (data : NodeData) (children : AstForest) (rest : AstForest)
deriving DecidableEq

/-- A collected section: the anonymous
`{start, end, type, name?, addedLines}` record of
`collectImpactedSections`. -/
structure SectionRange where
  start : Nat
  endLine : Nat
  type : String
  name : Option String
  addedLines : List Nat
deriving DecidableEq

/-- The errors this core can throw: the depth limiter's
`AST 遍历深度超限` error and the timeout rejection of `withTimeout`. -/
inductive JsError where
  | depthExceeded (depth maxDepth : Nat)
  | timeout (timeoutMs : Nat)
deriving DecidableEq

/-- `isTargetNode`: function, class and method-like node types. -/
def isTargetNodeType (t : String) : Bool :=
  ["FunctionDeclaration", "FunctionExpression", "ArrowFunctionExpression",
   "ClassDeclaration", "ClassMethod", "ClassProperty"].contains t

/-- The `node.key.name || node.key.value || 'anonymous'` and final
`'anonymous'` fallbacks of `getNodeName`. -/
def keyOrAnonymous (d : NodeData) : String :=
  match d.key with
  | some k => k
  | none => "anonymous"

/-- `AstService.getNodeName`: prefer the node's own identifier, else the
name of an enclosing `VariableDeclarator`, else the property key, else
`'anonymous'`. -/
def getNodeName (d : NodeData) (parent : Option NodeData) : String :=
  match d.id with
  | some nm => nm
  | none =>
    match parent with
    | some p =>
      if p.nodeType == "VariableDeclarator" then
        match p.id with
        | some nm => nm
        | none => keyOrAnonymous d
      else keyOrAnonymous d
    | none => keyOrAnonymous d

/-- `AstService.getNodeType`. -/
def getNodeType (t : String) : String :=
  if t == "ClassDeclaration" then "class"
  else if t == "ClassMethod" || t == "ClassProperty" then "method"
  else "function"

/-- `containsAddedLines` inside `collectImpactedSections`: the changed line
numbers falling inside `[s, e]`, in iteration order. -/
def relevantAddedLines (added : List Nat) (s e : Nat) : List Nat :=
  added.filter (fun n => decide (s ≤ n) && decide (n ≤ e))

/-- The body of the `enter` visitor for one node (after the depth check):
push a section when the node is function/class/method-like, has location
info and its line span contains at least one added line. -/
def sectionStep (added : List Nat) (d : NodeData) (parent : Option NodeData)
    (acc : List SectionRange) : List SectionRange :=
  if isTargetNodeType d.nodeType then
    match d.loc with
    | some (s, e) =>
      if (relevantAddedLines added s e).isEmpty then acc
      else
        acc ++ [{ start := s, endLine := e, type := getNodeType d.nodeType,
                  name := some (getNodeName d parent),
                  addedLines := relevantAddedLines added s e }]
    | none => acc
  else acc

/-- The depth-limited preorder traversal of `collectImpactedSections`:
`enter` increments the depth counter and throws `depthExceeded` when it
passes `maxDepth`; the throw aborts the whole traversal, and the sections
pushed so far survive (the source pushes into a mutable array). The result
pairs the collected sections with the thrown error, if any. -/
def visit (added : List Nat) (maxDepth : Nat) :
    Option NodeData → Nat → AstForest → List SectionRange →
      List SectionRange × Option JsError
  | _, _, .nil, acc => (acc, none)
  | parent, depth, .node d ch rs, acc =>
    if depth + 1 > maxDepth then
      (acc, some (JsError.depthExceeded (depth + 1) maxDepth))
    else
      match visit added maxDepth (some d) (depth + 1) ch
          (sectionStep added d parent acc) with
      | (acc2, some e) => (acc2, some e)
      | (acc2, none) => visit added maxDepth parent depth rs acc2

/-- The same traversal without the depth limiter: what a complete walk of
the tree would collect. -/
def visitFull (added : List Nat) :
    Option NodeData → AstForest → List SectionRange → List SectionRange
  | _, .nil, acc => acc
  | parent, .node d ch rs, acc =>
    visitFull added parent rs
      (visitFull added (some d) ch (sectionStep added d parent acc))

/-- The `error.message.includes('深度超限')` test of the catch block in
`collectImpactedSections`: the depth limiter's message
`AST 遍历深度超限 (d > max)` contains that substring, and the timeout
rejection's message does not. -/
def isDepthError : JsError → Bool
  | .depthExceeded _ _ => true
  | .timeout _ => false

/-- `AstService.collectImpactedSections`: run the depth-limited traversal;
a depth-limit throw is caught (logging a warning — the `Bool` of the result
records that a warning was surfaced) and the sections collected so far are
returned; any other error would be rethrown. -/
def collectImpactedSectionsE (ast : AstForest) (fullCode : String)
    (addedLineNumbers : List Nat) (cfg : AstConfig) :
    Except JsError (List SectionRange × Bool) :=
  match visit addedLineNumbers cfg.maxDepth none 0 ast [] with
  | (sections, none) => .ok (sections, false)
  | (sections, some e) =>
    if isDepthError e then .ok (sections, true) else .error e

/-! ## AstService.selectSmallestSections -/

/-- The sort key `end - start` of the size comparator. -/
def sectionSizeInt (s : SectionRange) : Int :=
  (s.endLine : Int) - s.start

/-- Stable insertion of a section into a list sorted ascending by size:
equal-size sections keep their original relative order, matching the
stable JavaScript `Array.prototype.sort`. -/
def insertBySize (x : SectionRange) : List SectionRange → List SectionRange
  | [] => [x]
  | y :: ys =>
    if sectionSizeInt y ≤ sectionSizeInt x then y :: insertBySize x ys
    else x :: y :: ys

/-- `[...sections].sort((a, b) => (a.end - a.start) - (b.end - b.start))`. -/
def sortBySize (l : List SectionRange) : List SectionRange :=
  l.foldl (fun acc x => insertBySize x acc) []

/-- The containment test of the greedy loop:
`selected.start <= section.start && selected.end >= section.end`. (The
source also compares object identity, `selectedSection !== section`; a
candidate object is examined before it can be pushed, so that comparison is
always true and is dropped here.) -/
def sectionContainsB (t s : SectionRange) : Bool :=
  decide (t.start ≤ s.start) && decide (s.endLine ≤ t.endLine)

/-- The greedy acceptance loop of `selectSmallestSections` over the
size-sorted sections, carrying the accepted list and the covered added
lines. -/
def selectLoop : List SectionRange → List SectionRange → List Nat →
    List SectionRange
  | [], sel, _ => sel
  | s :: rest, sel, covered =>
    if s.addedLines.any (fun l => !(covered.contains l)) then
      if sel.any (fun t => sectionContainsB t s) then
        selectLoop rest sel covered
      else selectLoop rest (sel ++ [s]) (covered ++ s.addedLines)
    else selectLoop rest sel covered

/-- `AstService.selectSmallestSections`. (As in the source, the
`addedLineNumbers` parameter is not read by the body.) -/
def selectSmallestSections (sections : List SectionRange)
    (addedLineNumbers : List Nat) : List SectionRange :=
  if sections.isEmpty then []
  else selectLoop (sortBySize sections) [] []

/-! ## AstService.limitSectionSize (Block Size Governor) -/

/-- The truncation marker appended after a hard character cut. -/
def truncMarker (total : Nat) : String :=
  "\n\n/* ... 代码过长已截断 (总长" ++ toString total ++ "字符) */"

/-- The marker appended after a line-count window. -/
def windowMarker (size : Int) : String :=
  "\n\n/* ... 函数较大(" ++ toString size ++ "行)，只显示新增行周围8行上下文 */"

/-- `Math.min` over a non-empty list given as head and tail. -/
def listMinNat (a : Nat) (l : List Nat) : Nat := l.foldl min a

/-- `Math.max` over a non-empty list given as head and tail. -/
def listMaxNat (a : Nat) (l : List Nat) : Nat := l.foldl max a

/-- `AstService.extractContextAroundLines`: a fixed-radius window around
the added lines, clipped to the section bounds, with ellipsis markers when
the window does not reach a boundary. -/
def extractContextAroundLines (codeLines : List String)
    (addedLines : List Nat) (startLine endLine contextRadius : Nat) :
    String :=
  match addedLines with
  | [] => jsJoinNL (jsSlice codeLines (startLine - 1) endLine)
  | a :: rest =>
    let minAddedLine := listMinNat a rest
    let maxAddedLine := listMaxNat a rest
    let contextStart := max startLine (minAddedLine - contextRadius)
    let contextEnd := min endLine (maxAddedLine + contextRadius)
    let context0 := jsSlice codeLines (contextStart - 1) contextEnd
    let context1 :=
      if startLine < contextStart then "/* ... 前面的代码 ... */" :: context0
      else context0
    let context2 :=
      if contextEnd < endLine then context1 ++ ["/* ... 后面的代码 ... */"]
      else context1
    jsJoinNL context2

/-- `codeLines.slice(section.start - 1, section.end).join('\n')`. -/
def sectionSnippet (sec : SectionRange) (fullCode : String) : String :=
  jsJoinNL (jsSlice (jsSplitLines fullCode) (sec.start - 1) sec.endLine)

/-- `AstService.limitSectionSize`: character ceiling exceeded → truncate and
append a marker; else line ceiling exceeded → radius-8 window around the
added lines plus a marker; else emit the snippet verbatim. (The source
declares a `CodeBlock | null` result but every path returns a block.) -/
def limitSectionSize (sec : SectionRange) (fullCode : String)
    (cfg : AstConfig) : CodeBlock :=
  let codeLines := jsSplitLines fullCode
  let snippet := sectionSnippet sec fullCode
  let size : Int := (sec.endLine : Int) - sec.start + 1
  if snippet.length > cfg.maxChars then
    { code := String.mk (snippet.data.take cfg.maxChars) ++
        truncMarker snippet.length,
      startLine := sec.start, endLine := sec.endLine, type := sec.type,
      name := sec.name }
  else if size > (cfg.maxLines : Int) then
    { code := extractContextAroundLines codeLines sec.addedLines sec.start
        sec.endLine 8 ++ windowMarker size,
      startLine := sec.start, endLine := sec.endLine, type := sec.type,
      name := sec.name }
  else
    { code := snippet, startLine := sec.start, endLine := sec.endLine,
      type := sec.type, name := sec.name }

/-! ## AstService.extractMinimalBlocks -/

/-- `new Set(...)` insertion-order deduplication: keep the first
occurrence of each element, tracking the elements already seen. -/
def jsSetListAux (seen : List Nat) : List Nat → List Nat
  | [] => []
  | a :: l =>
    if seen.contains a then jsSetListAux seen l
    else a :: jsSetListAux (a :: seen) l

/-- `new Set(...)` insertion-order deduplication of a list. -/
def jsSetList (l : List Nat) : List Nat := jsSetListAux [] l

/-- `new Set(addedLines.map(l => l.newLineNumber).filter(Boolean))`:
missing and zero line numbers are dropped (both are falsy), duplicates are
dropped keeping first occurrences. -/
def addedNumsOf (addedLines : List DiffLine) : List Nat :=
  jsSetList ((addedLines.filterMap (·.newLineNumber)).filter
    (fun n => !(n == 0)))

/-- `AstService.extractMinimalBlocks`: collect impacted sections (catching
the depth throw), reduce to the smallest covering set, then apply the size
governor to each selected section. -/
def extractMinimalBlocks (ast : AstForest) (addedLines : List DiffLine)
    (fullCode : String) (cfg : AstConfig) : Except JsError (List CodeBlock) :=
  let addedLineNumbers := addedNumsOf addedLines
  match collectImpactedSectionsE ast fullCode addedLineNumbers cfg with
  | .error e => .error e
  | .ok (allSections, _warned) =>
    .ok ((selectSmallestSections allSections addedLineNumbers).map
      (fun s => limitSectionSize s fullCode cfg))

end CodeReview

namespace CodeReview

/-! ## Structural parser adapter and the timeout wrapper

`@babel/parser.parse` and the Vue SFC compiler are external; their
behaviour on a given input is abstracted as a `ParseOracle`: `none` for a
parse attempt means that attempt threw, `some ast` that it returned a tree.
`parseCode` itself then follows the source control flow exactly. -/

/-- Outcomes of the external parsers on the input at hand. -/
structure ParseOracle where
  /-- The first `parser.parse` call (full plugin set, `sourceType:
  'module'`): the tree it returns, or `none` when it throws. -/
  firstParse : Option AstForest
  /-- The fallback `parser.parse` call (reduced plugins, `sourceType:
  'unambiguous'`). -/
  retryParse : Option AstForest
  /-- The Vue path: `none` when `@vue/compiler-sfc` is unavailable or
  throws, otherwise the blocks `extractScriptBlocks` produced from the SFC
  script sections. -/
  vueScriptBlocks : Option (List CodeBlock)

/-- `AstService.parseCode`: blank input yields `null`; the first parse
attempt is used if it succeeds; on a throw the lenient retry is used; if
the retry also throws the error is swallowed and `null` is returned —
`parseCode` never throws. -/
def parseCode (code : String) (extension : String) (o : ParseOracle) :
    Option AstForest :=
  if jsIsEmptyStr (jsTrim code) then none
  else
    match o.firstParse with
    | some ast => some ast
    | none =>
      match o.retryParse with
      | some ast => some ast
      | none => none

/-! ### The `withTimeout` wrapper as an event-loop machine

`withTimeout(fn, timeoutMs)` builds a promise whose executor (i) registers
a timer that would reject after `timeoutMs`, (ii) runs the synchronous `fn`
to completion, (iii) clears the timer (in the `try` path and in the `catch`
path alike), and (iv) settles with the outcome of `fn`. The machine below
makes the single-threaded event loop explicit: the executor's ops run as
one uninterruptible stack frame (timers cannot fire in between, however
long `busyWork` takes), the first `settle` wins, and pending timers run
only in the drain phase after the executor returns. -/

/-- Primitive executor operations. -/
inductive ExecOp (α : Type) where
  | setTimer (delay : Nat) (value : Except JsError α)
  | busyWork (duration : Nat)
  | clearTimer
  | settle (value : Except JsError α)

/-- Event-loop state: current time, the pending timer registered by the
executor (if any, with its fire time and the settlement it would attempt),
and the promise's settled value. -/
structure LoopState (α : Type) where
  now : Nat
  timer : Option (Nat × Except JsError α)
  promise : Option (Except JsError α)

/-- One synchronous executor step; a `settle` on an already-settled promise
is ignored (first settlement wins). -/
def execStep (st : LoopState α) : ExecOp α → LoopState α
  | .setTimer delay v => { st with timer := some (st.now + delay, v) }
  | .busyWork d => { st with now := st.now + d }
  | .clearTimer => { st with timer := none }
  | .settle v => { st with promise := (st.promise).orElse (fun _ => some v) }

/-- After the executor's stack frame returns, the event loop runs any
timer that is still registered; its callback attempts to settle the
promise (again, first settlement wins). -/
def drainTimers (st : LoopState α) : LoopState α :=
  match st.timer with
  | none => st
  | some (_, v) =>
    { st with timer := none, promise := (st.promise).orElse (fun _ => some v) }

/-- The executor of `withTimeout` for a synchronous `fn` with outcome
`fnOutcome` that occupies the stack for `fnDuration`: schedule the timeout
rejection, run `fn`, clear the timer, settle with the outcome of `fn`. -/
def withTimeoutOps (fnOutcome : Except JsError α)
    (fnDuration timeoutMs : Nat) : List (ExecOp α) :=
  [ExecOp.setTimer timeoutMs (Except.error (JsError.timeout timeoutMs)),
   ExecOp.busyWork fnDuration,
   ExecOp.clearTimer,
   ExecOp.settle fnOutcome]

/-- `AstService.withTimeout`: run the executor ops, then drain the event
loop; the resulting settlement of the promise is what the `await` sees. -/
def withTimeoutRun (fnOutcome : Except JsError α)
    (fnDuration timeoutMs : Nat) : Except JsError α :=
  ((drainTimers ((withTimeoutOps fnOutcome fnDuration timeoutMs).foldl
    execStep { now := 0, timer := none, promise := none })).promise).getD
    fnOutcome

/-- `AstService.parseCodeWithTimeout`: `parseCode` wrapped in
`withTimeout` with budget `config.ast.timeoutMs`; `parseDuration` is the
wall-clock time the synchronous parse occupies the stack. -/
def parseCodeWithTimeout (code : String) (extension : String)
    (cfg : AstConfig) (o : ParseOracle) (parseDuration : Nat) :
    Except JsError (Option AstForest) :=
  withTimeoutRun (Except.ok (parseCode code extension o)) parseDuration
    cfg.timeoutMs

/-! ## AstService.extractCodeBlocks -/

/-- `AstService.extractVueCodeBlocks` at the interface level: missing
compiler → fallback; empty reconstructed code → fallback; otherwise the
script-section blocks, or fallback when they are empty (errors inside the
Vue path are caught and also produce the fallback). -/
def extractVueCodeBlocks (diffLines : List DiffLine)
    (addedLines : List DiffLine) (cfg : AstConfig) (o : ParseOracle) :
    List CodeBlock :=
  match o.vueScriptBlocks with
  | none => fallbackExtractBlocks addedLines cfg
  | some blocks =>
    match buildFullCode diffLines with
    | none => fallbackExtractBlocks addedLines cfg
    | some _ =>
      if blocks.isEmpty then fallbackExtractBlocks addedLines cfg
      else blocks

/-- `AstService.extractCodeBlocks`: filter the added lines, gate on the
file extension, reconstruct the source, parse with timeout, extract the
minimal blocks; any exception escaping that `try` block is caught and
answered with `fallbackExtractBlocks`. The result is `Except` so that an
uncaught exception (were one possible) would be visible to the caller. -/
def extractCodeBlocks (diffLines : List DiffLine) (filePath : String)
    (config : AppConfig) (o : ParseOracle) (parseDuration : Nat) :
    Except JsError (List CodeBlock) :=
  let addedLines := diffLines.filter (fun l => l.type == LineType.added)
  if addedLines.isEmpty then .ok []
  else if !(isSupportedLanguage (getFileExtension filePath)) then .ok []
  else
    let body : Except JsError (List CodeBlock) :=
      if getFileExtension filePath == "vue" then
        .ok (extractVueCodeBlocks diffLines addedLines config.ast o)
      else
        match buildFullCode diffLines with
        | none => .ok []
        | some fullCode =>
          match parseCodeWithTimeout fullCode (getFileExtension filePath)
              config.ast o parseDuration with
          | .error e => .error e
          | .ok none => .ok []
          | .ok (some ast) =>
            extractMinimalBlocks ast addedLines fullCode config.ast
    match body with
    | .ok blocks => .ok blocks
    | .error _ => .ok (fallbackExtractBlocks addedLines config.ast)

/-! ## TokenService -/

/-- `TokenService.calculateAvailableTokens`:
`Math.max(0, maxTokens - inputTokens - reservedOutputTokens)`. -/
def calculateAvailableTokens (config : AppConfig) (inputTokens : Int) :
    Int :=
  max 0 (config.ai.maxTokens - inputTokens - config.token.reservedOutputTokens)

/-- `TokenService.exceedsTokenLimit` as a function of the token count of
the text (the external tokenizer's `countTokens` result): reports
`available < 0`. -/
def exceedsTokenLimit (tokenCount : Int) (config : AppConfig) : Bool :=
  decide (calculateAvailableTokens config tokenCount < 0)

end CodeReview

namespace CodeReview

/-! ## Claim C10: the token-budget check is unreachable -/

/-- C10: `exceedsTokenLimit` returns `false` for every token count and
configuration: `calculateAvailableTokens` floors at zero, so the
`available < 0` test can never hold. -/
theorem exceedsTokenLimit_always_false (tokenCount : Int)
    (config : AppConfig) : exceedsTokenLimit tokenCount config = false := by
  simp only [exceedsTokenLimit, decide_eq_false_iff_not, not_lt,
    calculateAvailableTokens]
  exact le_max_left 0 _

/-! ## Claim C9: the parse timeout -/

/-- The settlement of `withTimeout` is always the synchronous function's
own outcome: the executor clears the timer before its stack frame returns,
and the event loop cannot run the timer callback earlier, however long the
function occupies the stack. -/
theorem withTimeoutRun_eq {α : Type} (fnOutcome : Except JsError α)
    (fnDuration timeoutMs : Nat) :
    withTimeoutRun fnOutcome fnDuration timeoutMs = fnOutcome := rfl

/-- C9 (amended): `parseCodeWithTimeout` settles with the parse's own
outcome for every parse duration, including durations beyond
`config.ast.timeoutMs`; the timeout rejection never fires, so a pathological
parse is not aborted and the caller remains blocked for its full duration. -/
theorem withTimeout_settles_with_parse_outcome (code extension : String)
    (cfg : AstConfig) (o : ParseOracle) (parseDuration : Nat) :
    parseCodeWithTimeout code extension cfg o parseDuration =
      Except.ok (parseCode code extension o) :=
  withTimeoutRun_eq _ _ _

/-- Oracle for the C9 counterexample: the first parse attempt returns the
empty program. -/
def slowParseOracle : ParseOracle :=
  { firstParse := some AstForest.nil, retryParse := none,
    vueScriptBlocks := none }

/-- Counterexample to C9 as stated: a parse occupying the stack for
`timeoutMs + 1` milliseconds is not aborted — the wrapper resolves with the
parse result instead of rejecting with the timeout error. -/
theorem withTimeout_not_aborted_cex :
    parseCodeWithTimeout "const x = 1" "ts" defaultAstConfig slowParseOracle
        (defaultAstConfig.timeoutMs + 1) = Except.ok (some AstForest.nil) ∧
      parseCodeWithTimeout "const x = 1" "ts" defaultAstConfig
          slowParseOracle (defaultAstConfig.timeoutMs + 1) ≠
        Except.error (JsError.timeout defaultAstConfig.timeoutMs) := by
  have h : parseCodeWithTimeout "const x = 1" "ts" defaultAstConfig
      slowParseOracle (defaultAstConfig.timeoutMs + 1) =
        Except.ok (some AstForest.nil) := rfl
  refine ⟨h, ?_⟩
  rw [h]
  intro hcontra
  exact Except.noConfusion hcontra

/-! ## Claim C1: containment among selected sections -/

/-- Helper for C1: the greedy loop never accepts a section that is fully
contained in a previously accepted one, so the no-earlier-containment
pairwise invariant of the accepted list is preserved. -/
theorem selectLoop_no_earlier_containment :
    ∀ (rest sel : List SectionRange) (covered : List Nat),
      List.Pairwise (fun a b => sectionContainsB a b = false) sel →
      List.Pairwise (fun a b => sectionContainsB a b = false)
        (selectLoop rest sel covered) := by
  intro rest
  induction rest with
  | nil => intro sel covered h; simpa [selectLoop] using h
  | cons s rest ih =>
    intro sel covered h
    unfold selectLoop
    by_cases h1 : (s.addedLines.any (fun l => !(covered.contains l))) = true
    · rw [if_pos h1]
      by_cases h2 : (sel.any (fun t => sectionContainsB t s)) = true
      · rw [if_pos h2]
        exact ih sel covered h
      · rw [if_neg h2]
        apply ih
        rw [List.pairwise_append]
        refine ⟨h, List.pairwise_singleton _ _, ?_⟩
        intro x hx y hy
        rcases List.mem_singleton.mp hy with rfl
        simp only [List.any_eq_true, not_exists, not_and] at h2
        exact Bool.eq_false_iff.mpr (h2 x hx)
    · rw [if_neg h1]
      exact ih sel covered h

/-- C1 (amended): in the list returned by `selectSmallestSections`, no
block accepted earlier fully contains a block accepted later — the greedy
guard rejects any candidate contained in an already-accepted span. (A
later, larger block may still contain an earlier one; see the
counterexample.) -/
theorem selectSmallestSections_no_earlier_containment
    (sections : List SectionRange) (addedLineNumbers : List Nat) :
    List.Pairwise (fun a b => sectionContainsB a b = false)
      (selectSmallestSections sections addedLineNumbers) := by
  unfold selectSmallestSections
  split
  · exact List.Pairwise.nil
  · exact selectLoop_no_earlier_containment _ [] [] List.Pairwise.nil

/-- Data of an outer function spanning lines 1–10. -/
def outerFnData : NodeData :=
  { nodeType := "FunctionDeclaration", loc := some (1, 10),
    id := some "outer" }

/-- Data of an inner function spanning lines 5–6. -/
def innerFnData : NodeData :=
  { nodeType := "FunctionDeclaration", loc := some (5, 6),
    id := some "inner" }

/-- A tree with the inner function nested in the outer one. -/
def nestedTree : AstForest :=
  .node outerFnData (.node innerFnData .nil .nil) .nil

/-- The section collected for the outer function when lines 1 and 5
changed. -/
def outerSec : SectionRange :=
  { start := 1, endLine := 10, type := "function", name := some "outer",
    addedLines := [1, 5] }

/-- The section collected for the inner function when lines 1 and 5
changed. -/
def innerSec : SectionRange :=
  { start := 5, endLine := 6, type := "function", name := some "inner",
    addedLines := [5] }

/-- Counterexample to C1 as stated: on the fixed tree `nestedTree` with
changed lines `{1, 5}`, the traversal collects the outer and inner
sections, and the reduction returns *both* — first the inner, then the
outer, which fully contains it. Two returned blocks are therefore in an
ancestor/descendant containment relationship. -/
theorem select_containment_cex :
    collectImpactedSectionsE nestedTree "" [1, 5] defaultAstConfig =
        Except.ok ([outerSec, innerSec], false) ∧
      selectSmallestSections [outerSec, innerSec] [1, 5] =
        [innerSec, outerSec] ∧
      sectionContainsB outerSec innerSec = true ∧
      outerSec ≠ innerSec := by
  refine ⟨rfl, ?_, ?_, ?_⟩ <;> decide

end CodeReview

namespace CodeReview

/-! ## Claim C2: final parse failure -/

/-- Oracle in which both parse attempts throw. -/
def failingParseOracle : ParseOracle :=
  { firstParse := none, retryParse := none, vueScriptBlocks := none }

/-- The default `AppConfig` values this core reads. -/
def defaultAppConfig : AppConfig :=
  { ai := { maxTokens := 4096 }, token := { reservedOutputTokens := 2000 },
    ast := defaultAstConfig }

/-- A one-line diff adding `const x = 1`. -/
def simpleAddedDiff : List DiffLine :=
  [{ lineNumber := 1, content := "+const x = 1", type := .added,
     newLineNumber := some 1 }]

/-- C2 (amended): when both parse attempts fail on a non-Vue file, no
exception reaches the caller — `parseCode` swallows both errors and returns
`null` — and extraction returns *zero* blocks; the Fallback Extractor is
not invoked on this path (it runs only when an exception escapes the `try`
block, or on the Vue path). -/
theorem parse_failure_returns_empty (diffLines : List DiffLine)
    (filePath : String) (config : AppConfig) (o : ParseOracle)
    (parseDuration : Nat) (h1 : o.firstParse = none)
    (h2 : o.retryParse = none) (h3 : getFileExtension filePath ≠ "vue") :
    extractCodeBlocks diffLines filePath config o parseDuration =
      Except.ok [] := by
  have hpc : ∀ code ext, parseCode code ext o = none := by
    intro code ext
    unfold parseCode
    rw [h1, h2]
    split <;> rfl
  have hvue : (getFileExtension filePath == "vue") = false :=
    beq_eq_false_iff_ne.mpr h3
  unfold extractCodeBlocks
  by_cases hadd :
      (diffLines.filter (fun l => l.type == LineType.added)).isEmpty = true
  · rw [if_pos hadd]
  · rw [if_neg hadd]
    by_cases hsup :
        (!(isSupportedLanguage (getFileExtension filePath))) = true
    · rw [if_pos hsup]
    · rw [if_neg hsup]
      have hto : ∀ code : String,
          parseCodeWithTimeout code (getFileExtension filePath) config.ast o
            parseDuration = Except.ok none := by
        intro code
        unfold parseCodeWithTimeout
        rw [withTimeoutRun_eq, hpc]
      cases hbf : buildFullCode diffLines with
      | none => simp only [hvue, Bool.false_eq_true, if_false, hbf]
      | some fullCode =>
        simp only [hvue, Bool.false_eq_true, if_false, hbf, hto]

/-- Witness for C2 (amended) at a concrete failing parse. -/
theorem parse_failure_returns_empty_witness :
    failingParseOracle.firstParse = none ∧
      failingParseOracle.retryParse = none ∧
      getFileExtension "a.ts" ≠ "vue" ∧
      extractCodeBlocks simpleAddedDiff "a.ts" defaultAppConfig
        failingParseOracle 0 = Except.ok [] :=
  ⟨rfl, rfl, by decide,
    parse_failure_returns_empty simpleAddedDiff "a.ts" defaultAppConfig
      failingParseOracle 0 rfl rfl (by decide)⟩

/-- Counterexample to C2 as stated: on `+const x = 1` in `a.ts` with both
parse attempts failing, extraction returns zero blocks, while the Fallback
Extractor — had it been invoked as the claim says — would have produced its
single block. -/
theorem parse_failure_zero_blocks_cex :
    extractCodeBlocks simpleAddedDiff "a.ts" defaultAppConfig
        failingParseOracle 0 = Except.ok [] ∧
      fallbackExtractBlocks
          (simpleAddedDiff.filter (fun l => l.type == LineType.added))
          defaultAppConfig.ast =
        [{ code := "const x = 1", startLine := 1, endLine := 1,
           type := "unknown" }] := by
  refine ⟨rfl, ?_⟩
  decide

end CodeReview

namespace CodeReview

/-! ## Claim C6: size governance outcomes -/

/-- C6 (amended): for every selected section, exactly one of three
mutually exclusive outcomes holds. (1) Character ceiling exceeded: the
block's code is the first `maxChars` characters plus the truncation marker,
so its character count *exceeds* the ceiling by the marker's length.
(2) Otherwise, line ceiling exceeded: the code is the radius-8 window
around the added lines plus the window marker (the span still exceeds the
line ceiling). (3) Otherwise the snippet is emitted verbatim, within both
ceilings. Line windowing and character truncation are never combined. -/
theorem limitSectionSize_outcomes (sec : SectionRange) (fullCode : String)
    (cfg : AstConfig) :
    (cfg.maxChars < (sectionSnippet sec fullCode).length ∧
      (limitSectionSize sec fullCode cfg).code =
        String.mk ((sectionSnippet sec fullCode).data.take cfg.maxChars) ++
          truncMarker (sectionSnippet sec fullCode).length ∧
      (limitSectionSize sec fullCode cfg).code.length =
        cfg.maxChars +
          (truncMarker (sectionSnippet sec fullCode).length).length) ∨
    ((sectionSnippet sec fullCode).length ≤ cfg.maxChars ∧
      (cfg.maxLines : Int) < (sec.endLine : Int) - sec.start + 1 ∧
      (limitSectionSize sec fullCode cfg).code =
        extractContextAroundLines (jsSplitLines fullCode) sec.addedLines
          sec.start sec.endLine 8 ++
          windowMarker ((sec.endLine : Int) - sec.start + 1)) ∨
    ((sectionSnippet sec fullCode).length ≤ cfg.maxChars ∧
      (sec.endLine : Int) - sec.start + 1 ≤ (cfg.maxLines : Int) ∧
      (limitSectionSize sec fullCode cfg).code =
        sectionSnippet sec fullCode) := by
  simp only [limitSectionSize]
  split_ifs with h1 h2
  · left
    refine ⟨h1, rfl, ?_⟩
    rw [String.length_append]
    congr 1
    show ((sectionSnippet sec fullCode).data.take cfg.maxChars).length =
      cfg.maxChars
    rw [List.length_take]
    exact Nat.min_eq_left (Nat.le_of_lt h1)
  · right; left
    exact ⟨Nat.le_of_not_lt h1, h2, rfl⟩
  · right; right
    exact ⟨Nat.le_of_not_lt h1, le_of_not_lt h2, rfl⟩

/-- Node data for a one-line function at line 1. -/
def oneLineFnData : NodeData :=
  { nodeType := "FunctionDeclaration", loc := some (1, 1), id := some "f" }

/-- A tree consisting of that single function node. -/
def singleFnTree : AstForest := .node oneLineFnData .nil .nil

/-- Oracle whose first parse attempt returns `singleFnTree`. -/
def truncParseOracle : ParseOracle :=
  { firstParse := some singleFnTree, retryParse := none,
    vueScriptBlocks := none }

/-- A diff adding one 31-character line. -/
def longAddedDiff : List DiffLine :=
  [{ lineNumber := 1, content := "+0123456789012345678901234567890",
     type := .added, newLineNumber := some 1 }]

/-- A configuration whose character ceiling is 5. -/
def smallCharConfig : AppConfig :=
  { ai := { maxTokens := 4096 }, token := { reservedOutputTokens := 2000 },
    ast := { maxChars := 5, maxLines := 150, timeoutMs := 8000,
             maxDepth := 60 } }

/-- Counterexample to C6 as stated: with `maxChars = 5` and a 31-character
added line inside a function block, extraction returns a block whose code
is longer than `maxChars` — the truncated text plus the appended truncation
marker exceeds the configured character ceiling. -/
theorem truncated_block_exceeds_maxChars_cex :
    ((extractCodeBlocks longAddedDiff "a.ts" smallCharConfig
          truncParseOracle 0).toOption.getD []).any
        (fun b => decide (smallCharConfig.ast.maxChars < b.code.length)) =
      true := by
  decide

end CodeReview

namespace CodeReview

/-! ## Claim C8: the depth limiter keeps partial results -/

theorem sectionStep_append (added : List Nat) (d : NodeData)
    (parent : Option NodeData) (acc : List SectionRange) :
    ∃ t, sectionStep added d parent acc = acc ++ t := by
  unfold sectionStep
  split
  · split
    · split
      · exact ⟨[], by simp⟩
      · exact ⟨_, rfl⟩
    · exact ⟨[], by simp⟩
  · exact ⟨[], by simp⟩

theorem visitFull_append (added : List Nat) :
    ∀ (f : AstForest) (parent : Option NodeData) (acc : List SectionRange),
      ∃ t, visitFull added parent f acc = acc ++ t := by
  intro f
  induction f with
  | nil => intro parent acc; exact ⟨[], by simp [visitFull]⟩
  | node d ch rs ihch ihrs =>
    intro parent acc
    obtain ⟨t0, h0⟩ := sectionStep_append added d parent acc
    obtain ⟨t1, h1⟩ := ihch (some d) (sectionStep added d parent acc)
    obtain ⟨t2, h2⟩ := ihrs parent
      (visitFull added (some d) ch (sectionStep added d parent acc))
    refine ⟨t0 ++ t1 ++ t2, ?_⟩
    rw [visitFull, h2, h1, h0]
    simp [List.append_assoc]

theorem visit_sections_append (added : List Nat) (md : Nat) :
    ∀ (f : AstForest) (parent : Option NodeData) (depth : Nat)
      (acc : List SectionRange),
      ∃ t, (visit added md parent depth f acc).1 = acc ++ t := by
  intro f
  induction f with
  | nil => intro parent depth acc; exact ⟨[], by simp [visit]⟩
  | node d ch rs ihch ihrs =>
    intro parent depth acc
    rw [visit]
    by_cases hd : depth + 1 > md
    · rw [if_pos hd]
      exact ⟨[], by simp⟩
    · rw [if_neg hd]
      obtain ⟨t0, h0⟩ := sectionStep_append added d parent acc
      obtain ⟨t1, h1⟩ := ihch (some d) (depth + 1)
        (sectionStep added d parent acc)
      cases hch : visit added md (some d) (depth + 1) ch
          (sectionStep added d parent acc) with
      | mk acc2 err =>
        rw [hch] at h1
        simp only at h1
        cases err with
        | some e =>
          refine ⟨t0 ++ t1, ?_⟩
          show acc2 = acc ++ (t0 ++ t1)
          rw [h1, h0, List.append_assoc]
        | none =>
          obtain ⟨t2, h2⟩ := ihrs parent depth acc2
          refine ⟨t0 ++ t1 ++ t2, ?_⟩
          show (visit added md parent depth rs acc2).1 = _
          rw [h2, h1, h0]
          simp [List.append_assoc]

theorem visit_none_eq_full (added : List Nat) (md : Nat) :
    ∀ (f : AstForest) (parent : Option NodeData) (depth : Nat)
      (acc : List SectionRange),
      (visit added md parent depth f acc).2 = none →
      (visit added md parent depth f acc).1 = visitFull added parent f acc := by
  intro f
  induction f with
  | nil => intro parent depth acc _; simp [visit, visitFull]
  | node d ch rs ihch ihrs =>
    intro parent depth acc h
    rw [visit] at h ⊢
    by_cases hd : depth + 1 > md
    · rw [if_pos hd] at h
      simp at h
    · rw [if_neg hd] at h ⊢
      cases hch : visit added md (some d) (depth + 1) ch
          (sectionStep added d parent acc) with
      | mk acc2 err =>
        rw [hch] at h
        cases err with
        | some e => simp at h
        | none =>
          have hceq : acc2 =
              visitFull added (some d) ch (sectionStep added d parent acc) := by
            have hih := ihch (some d) (depth + 1)
              (sectionStep added d parent acc) (by rw [hch])
            rw [hch] at hih
            exact hih
          rw [visitFull, ← hceq]
          show (visit added md parent depth rs acc2).1 = _
          exact ihrs parent depth acc2 h

theorem visit_sections_isPre (added : List Nat) (md : Nat) :
    ∀ (f : AstForest) (parent : Option NodeData) (depth : Nat)
      (acc : List SectionRange),
      (visit added md parent depth f acc).1 <+: visitFull added parent f acc := by
  intro f
  induction f with
  | nil => intro parent depth acc; simp [visit, visitFull]
  | node d ch rs ihch ihrs =>
    intro parent depth acc
    rw [visit, visitFull]
    by_cases hd : depth + 1 > md
    · rw [if_pos hd]
      obtain ⟨t0, h0⟩ := sectionStep_append added d parent acc
      obtain ⟨t1, h1⟩ := visitFull_append added ch (some d)
        (sectionStep added d parent acc)
      obtain ⟨t2, h2⟩ := visitFull_append added rs parent
        (visitFull added (some d) ch (sectionStep added d parent acc))
      rw [h2, h1, h0]
      exact ⟨t0 ++ t1 ++ t2, by simp [List.append_assoc]⟩
    · rw [if_neg hd]
      cases hch : visit added md (some d) (depth + 1) ch
          (sectionStep added d parent acc) with
      | mk acc2 err =>
        cases err with
        | some e =>
          have hpre : acc2 <+:
              visitFull added (some d) ch (sectionStep added d parent acc) := by
            have hih := ihch (some d) (depth + 1)
              (sectionStep added d parent acc)
            rw [hch] at hih
            exact hih
          obtain ⟨t2, h2⟩ := visitFull_append added rs parent
            (visitFull added (some d) ch (sectionStep added d parent acc))
          rw [h2]
          exact hpre.trans ⟨t2, rfl⟩
        | none =>
          have hceq : acc2 =
              visitFull added (some d) ch (sectionStep added d parent acc) := by
            have hih := visit_none_eq_full added md ch (some d) (depth + 1)
              (sectionStep added d parent acc) (by rw [hch])
            rw [hch] at hih
            exact hih
          rw [← hceq]
          exact ihrs parent depth acc2

theorem visit_error_is_depth (added : List Nat) (md : Nat) :
    ∀ (f : AstForest) (parent : Option NodeData) (depth : Nat)
      (acc secs : List SectionRange) (e : JsError),
      visit added md parent depth f acc = (secs, some e) →
      isDepthError e = true := by
  intro f
  induction f with
  | nil => intro parent depth acc secs e h; simp [visit] at h
  | node d ch rs ihch ihrs =>
    intro parent depth acc secs e h
    rw [visit] at h
    by_cases hd : depth + 1 > md
    · rw [if_pos hd] at h
      injection h with h1 h2
      injection h2 with h3
      rw [← h3]
      rfl
    · rw [if_neg hd] at h
      cases hch : visit added md (some d) (depth + 1) ch
          (sectionStep added d parent acc) with
      | mk acc2 err =>
        rw [hch] at h
        cases err with
        | some e2 =>
          injection h with h1 h2
          injection h2 with h3
          rw [← h3]
          exact ihch _ _ _ _ _ hch
        | none => exact ihrs _ _ _ _ _ h

/-- C8: when the traversal aborts with the depth-limit error, the error is
caught (never rethrown: it is the depth error the catch tests for), a
warning is surfaced, the sections collected before the abort are kept — a
prefix of what the complete traversal would collect — and extraction
returns the block set built from exactly those partial sections. -/
theorem depth_exceeded_partial_blocks (ast : AstForest)
    (addedLines : List DiffLine) (fullCode : String) (cfg : AstConfig)
    (sections : List SectionRange) (e : JsError)
    (h : visit (addedNumsOf addedLines) cfg.maxDepth none 0 ast [] =
      (sections, some e)) :
    collectImpactedSectionsE ast fullCode (addedNumsOf addedLines) cfg =
        Except.ok (sections, true) ∧
      sections <+: visitFull (addedNumsOf addedLines) none ast [] ∧
      extractMinimalBlocks ast addedLines fullCode cfg =
        Except.ok ((selectSmallestSections sections
          (addedNumsOf addedLines)).map
            (fun s => limitSectionSize s fullCode cfg)) := by
  have herr : isDepthError e = true :=
    visit_error_is_depth _ _ ast none 0 [] sections e h
  have hcol : collectImpactedSectionsE ast fullCode (addedNumsOf addedLines)
      cfg = Except.ok (sections, true) := by
    unfold collectImpactedSectionsE
    rw [h]
    simp [herr]
  refine ⟨hcol, ?_, ?_⟩
  · have hp := visit_sections_isPre (addedNumsOf addedLines) cfg.maxDepth
      ast none 0 []
    rw [h] at hp
    exact hp
  · simp only [extractMinimalBlocks]
    rw [hcol]

/-- Outer function of the depth witness, lines 1–4. -/
def depthOuterData : NodeData :=
  { nodeType := "FunctionDeclaration", loc := some (1, 4), id := some "f" }

/-- Inner function of the depth witness, lines 2–3. -/
def depthInnerData : NodeData :=
  { nodeType := "FunctionDeclaration", loc := some (2, 3), id := some "g" }

/-- A two-level tree for the depth witness. -/
def depthTree : AstForest :=
  .node depthOuterData (.node depthInnerData .nil .nil) .nil

/-- A configuration with traversal depth ceiling 1. -/
def depthCfg : AstConfig :=
  { maxChars := 10000, maxLines := 150, timeoutMs := 8000, maxDepth := 1 }

/-- A diff adding line 2. -/
def depthAdded : List DiffLine :=
  [{ lineNumber := 2, content := "+x", type := .added,
     newLineNumber := some 2 }]

/-- The section collected for the outer function before the abort. -/
def depthOuterSec : SectionRange :=
  { start := 1, endLine := 4, type := "function", name := some "f",
    addedLines := [2] }

/-- Witness for C8: with `maxDepth = 1` the traversal of `depthTree` aborts
entering the inner function, having collected the outer section; the error
is caught with a warning and extraction returns the block built from that
partial section. -/
theorem depth_exceeded_partial_blocks_witness :
    visit (addedNumsOf depthAdded) depthCfg.maxDepth none 0 depthTree [] =
        ([depthOuterSec], some (JsError.depthExceeded 2 1)) ∧
      collectImpactedSectionsE depthTree "x" (addedNumsOf depthAdded)
          depthCfg = Except.ok ([depthOuterSec], true) ∧
      [depthOuterSec] <+: visitFull (addedNumsOf depthAdded) none depthTree
        [] ∧
      extractMinimalBlocks depthTree depthAdded "x" depthCfg =
        Except.ok ((selectSmallestSections [depthOuterSec]
          (addedNumsOf depthAdded)).map
            (fun s => limitSectionSize s "x" depthCfg)) := by
  have h : visit (addedNumsOf depthAdded) depthCfg.maxDepth none 0 depthTree
      [] = ([depthOuterSec], some (JsError.depthExceeded 2 1)) := by decide
  have main := depth_exceeded_partial_blocks depthTree depthAdded "x"
    depthCfg [depthOuterSec] (JsError.depthExceeded 2 1) h
  exact ⟨h, main.1, main.2.1, main.2.2⟩

end CodeReview
